import Mathlib

/-!
Verification development for the DQN learning core of the repository
(`src/project/networks/DQN.py`).

Tensors are embedded as lists of exact rationals: a row vector is `List ℚ` and a
two-dimensional tensor is a list of rows.  The `done` tensor carries its runtime
dtype, since `compute_targets` branches on it.  Gradient bookkeeping of PyTorch's
autograd is shadowed by a Boolean flag on tensors: a flag `true` means the tensor
is part of the computation graph from which `loss.backward()` accumulates
gradients; `torch.no_grad()` is modelled by evaluating with gradient mode off,
which forces the flag of every result to `false`.

The replay memory class is imported by the source from a module that is not part
of the sources available here; its operations are modelled from the spec and are
marked as such in their doc comments.
-/

namespace DQNModel

abbrev Vec := List ℚ
abbrev Mat := List (List ℚ)

/-- Dot product of a weight row with an input vector. -/
def dot (w x : Vec) : ℚ := (List.zipWith (fun a b => a * b) w x).sum

/-- One layer of the `nn.Sequential` model built by `DeepQNetwork.__init__`:
an affine map `nn.Linear` (weight matrix of shape out×in plus bias) or `nn.ReLU`. -/
inductive Layer where
  | linear (W : Mat) (b : Vec)
  | relu

/-- Application of a single layer to an input vector.  `nn.Linear` computes
`W x + b` rowwise; `nn.ReLU` clamps each coordinate at zero. -/
def applyLayer : Layer → Vec → Vec
  | .linear W b, x => List.zipWith (fun w bj => dot w x + bj) W b
  | .relu, x => x.map (fun v => max v 0)

/-- Sequential application of the layer list, as `nn.Sequential.forward`. -/
def applyModel (m : List Layer) (x : Vec) : Vec := m.foldl (fun v l => applyLayer l v) x

/-- Maximum of a list of rationals, as `torch.max(·, dim=1)` on one row
(defaulting to 0 on an empty row, which torch would reject). -/
def listMax : List ℚ → ℚ
  | [] => 0
  | x :: xs => xs.foldl max x

/-- The `DeepQNetwork` object: the built `nn.Sequential` model together with the
discount factor stored at construction. -/
structure DeepQNetwork where
  model : List Layer
  discount_factor : ℚ

/-- Embedding of `DeepQNetwork.forward`: `self.model.forward(x)`, applied to a
batched input row by row. -/
def DeepQNetwork.forward (Q : DeepQNetwork) (x : Mat) : Mat :=
  x.map (applyModel Q.model)

/-- Embedding of `torch.gather(out, 1, index)`: entry `(i, j)` of the result is
`out[i][index[i][j]]`. -/
def gather (out : Mat) (index : List (List ℕ)) : Mat :=
  List.zipWith (fun row idxRow => idxRow.map (fun a => row.getD a 0)) out index

/-- Embedding of `DeepQNetwork.compute_q_vals`: forward the states through the
model, then `torch.gather(out, 1, actions)`. -/
def DeepQNetwork.compute_q_vals (Q : DeepQNetwork) (states : Mat)
    (actions : List (List ℕ)) : Mat :=
  gather (Q.forward states) actions

/-- Embedding of `DeepQNetwork.compute_v_vals`, whose body is `pass`: the Python
method returns `None` on every input, modelled as `Option.none`. -/
def DeepQNetwork.compute_v_vals (_Q : DeepQNetwork) (_states : Mat) : Option Mat :=
  none

/-- The `done` tensor together with its runtime dtype, which `compute_targets`
branches on: `torch.uint8` (stored values are naturals below 256), a floating
dtype, a signed integer dtype, or `torch.bool`. -/
inductive DoneTensor where
  | uint8 (vals : List (List ℕ))
  | float (vals : List (List ℚ))
  | int64 (vals : List (List ℤ))
  | boolT (vals : List (List Bool))

/-- The uint8 computation `(d - 1) * -1` of `compute_targets`: arithmetic wraps
modulo 256 and the scalar `-1` is cast to the uint8 value 255. -/
def u8SwitchZeroOne (v : ℕ) : ℕ := (v + 255) % 256 * 255 % 256

/-- The `adjusted_dones` tensor of `compute_targets`.  For a uint8 `done` it is
`(done - 1) * -1`; for any other dtype it is `torch.ones(done.size(),
dtype=torch.uint8)` with zeros written at the positions where `done == True`
(comparison against Python `True`, i.e. against the value 1 for numeric dtypes). -/
def doneMask : DoneTensor → List (List ℕ)
  | .uint8 vs => vs.map (fun row => row.map u8SwitchZeroOne)
  | .float vs => vs.map (fun row => row.map (fun v => if v = 1 then 0 else 1))
  | .int64 vs => vs.map (fun row => row.map (fun v => if v = 1 then 0 else 1))
  | .boolT vs => vs.map (fun row => row.map (fun b => if b then 0 else 1))

/-- Embedding of `DeepQNetwork.compute_targets`: forward the next states, take
the rowwise maximum (`torch.max(·, dim=1).values.unsqueeze(1)`), normalize the
done flags to `adjusted_dones`, and return
`reward + adjusted_dones * self.discount_factor * next_max` elementwise. -/
def DeepQNetwork.compute_targets (Q : DeepQNetwork) (reward : Mat)
    (next_state : Mat) (done : DoneTensor) : Mat :=
  let next_q_vals := Q.forward next_state
  let next_max := next_q_vals.map (fun row => [listMax row])
  let adjusted_dones := doneMask done
  List.zipWith (fun rrow prow => List.zipWith (fun r p => r + p) rrow prow) reward
    (List.zipWith
      (fun mrow vrow =>
        List.zipWith (fun (m : ℕ) v => (m : ℚ) * Q.discount_factor * v) mrow vrow)
      adjusted_dones next_max)

/-- A floating tensor together with its autograd status: `grad = true` means the
tensor belongs to the computation graph that `loss.backward()` differentiates. -/
structure GTensor where
  val : Mat
  grad : Bool

/-- Whether the model holds trainable parameters (every `nn.Linear` layer's
weights and biases have `requires_grad = True` by default). -/
def modelHasParams (m : List Layer) : Bool :=
  m.any (fun l => match l with | .linear _ _ => true | .relu => false)

/-- Gradient-tracking shadow of `compute_q_vals`: the values are those of
`compute_q_vals`; the result is in the computation graph iff gradient mode is
enabled and either the input states or the model parameters require gradients
(gather propagates graph membership). -/
def DeepQNetwork.gcompute_q_vals (Q : DeepQNetwork) (gradEnabled : Bool)
    (states : GTensor) (actions : List (List ℕ)) : GTensor :=
  { val := Q.compute_q_vals states.val actions
    grad := gradEnabled && (states.grad || modelHasParams Q.model) }

/-- Gradient-tracking shadow of `compute_targets` on a uint8 done column (the
form produced by `memory_to_input`): the values are those of `compute_targets`;
the result is in the computation graph iff gradient mode is enabled and some
differentiable input (reward, next states, or the model parameters) requires
gradients.  The integer `done` tensor can never carry gradients. -/
def DeepQNetwork.gcompute_targets (Q : DeepQNetwork) (gradEnabled : Bool)
    (reward : GTensor) (next_state : GTensor) (done : List (List ℕ)) : GTensor :=
  { val := Q.compute_targets reward.val next_state.val (.uint8 done)
    grad := gradEnabled && (reward.grad || next_state.grad || modelHasParams Q.model) }

/-- One experience tuple `(state, action, reward, next_state, done)`. -/
structure Transition where
  state : Vec
  action : ℕ
  reward : ℚ
  next_state : Vec
  done : Bool

/-- A fallback transition, used only as the default of list lookups. -/
def defaultTransition : Transition :=
  { state := [], action := 0, reward := 0, next_state := [], done := false }

/-- A concrete two-action network used by witnesses: a single linear layer with
identity weights and zero bias, discount factor 9/10. -/
def exampleNet : DeepQNetwork :=
  { model := [Layer.linear [[1, 0], [0, 1]] [0, 0]], discount_factor := 9 / 10 }

/-- The batch dictionary produced by `memory_to_input`. -/
structure Batch where
  state : GTensor
  action : List (List ℕ)
  reward : GTensor
  next_state : GTensor
  done : List (List ℕ)

/-- Embedding of `DeepQNetwork.memory_to_input`: unzip the transitions and build
the batch tensors.  States, rewards and next states are floating tensors created
with `requires_grad=True`; actions are an int64 column; done flags are a uint8
column obtained from the Python booleans. -/
def memory_to_input (transitions : List Transition) : Batch :=
  { state := { val := transitions.map (fun t => t.state), grad := true }
    action := transitions.map (fun t => [t.action])
    reward := { val := transitions.map (fun t => [t.reward]), grad := true }
    next_state := { val := transitions.map (fun t => t.next_state), grad := true }
    done := transitions.map (fun t => [if t.done then 1 else 0]) }

/-- The pointwise Huber-style term of `F.smooth_l1_loss` with the default
`beta = 1`. -/
def smoothL1 (x : ℚ) : ℚ := if |x| < 1 then x * x / 2 else |x| - 1 / 2

/-- Number of entries of a two-dimensional tensor. -/
def matCount (m : Mat) : ℕ := (m.map (fun r => r.length)).sum

/-- Embedding of `F.smooth_l1_loss` with the default mean reduction. -/
def smooth_l1_loss (a b : Mat) : ℚ :=
  let d := List.zipWith (fun ra rb => List.zipWith (fun u v => smoothL1 (u - v)) ra rb) a b
  ((d.map (fun r => r.sum)).sum) / (matCount d : ℚ)

/-- Modelled from the spec: the `ReplayMemory` class is imported by `DQN.py`
from a module that is not among the available sources.  Per the spec it is an
ordered sequence of transitions (most recent last) with a fixed capacity. -/
structure ReplayMemory where
  capacity : ℕ
  buffer : List Transition

/-- Modelled from the spec: the buffer is created empty at training start. -/
def ReplayMemory.empty (capacity : ℕ) : ReplayMemory :=
  { capacity := capacity, buffer := [] }

/-- Modelled from the spec: `push` appends the transition; once the buffer is at
capacity the oldest entry is evicted so that the length never exceeds the
capacity (FIFO). -/
def ReplayMemory.push (m : ReplayMemory) (t : Transition) : ReplayMemory :=
  { capacity := m.capacity
    buffer := (m.buffer ++ [t]).drop (m.buffer.length + 1 - m.capacity) }

/-- Sequence of pushes, oldest first. -/
def ReplayMemory.pushAll (m : ReplayMemory) (ts : List Transition) : ReplayMemory :=
  ts.foldl ReplayMemory.push m

/-- A linear congruential step standing in for Python's global random source. -/
def lcg (s : ℕ) : ℕ := (1103515245 * s + 12345) % 2147483648

/-- Selection without replacement: repeatedly pick a position of the remaining
index pool from the random stream and remove it from the pool. -/
def pickFrom : List ℕ → ℕ → ℕ → List ℕ
  | _, 0, _ => []
  | avail, k + 1, s =>
    let i := s % avail.length
    avail.getD i 0 :: pickFrom (avail.eraseIdx i) k (lcg s)

/-- Modelled from the spec: `sample(batch_size)` draws `batch_size` distinct
transitions without replacement from the current contents (the random source is
modelled as a seed); requesting more than the buffer holds raises, modelled as
`none`. -/
def ReplayMemory.sample (m : ReplayMemory) (batch_size : ℕ) (seed : ℕ) :
    Option (List Transition) :=
  if batch_size ≤ m.buffer.length then
    some ((pickFrom (List.range m.buffer.length) batch_size seed).map
      (fun i => m.buffer.getD i defaultTransition))
  else none

/-- The two tensors of one training update of `train_QNet` that enter the loss:
the current Q-values `compute_q_vals(state, action)` computed in normal gradient
mode, and the target, computed inside `torch.no_grad()` when `semi_grad` is set
and in normal gradient mode otherwise. -/
def trainBatchTensors (QNet : DeepQNetwork) (transitions : List Transition)
    (semi_grad : Bool) : GTensor × GTensor :=
  let p := memory_to_input transitions
  (QNet.gcompute_q_vals true p.state p.action,
    if semi_grad then QNet.gcompute_targets false p.reward p.next_state p.done
    else QNet.gcompute_targets true p.reward p.next_state p.done)

/-- Embedding of `train_QNet` (the commented-out training step in `DQN.py`,
lines 130 onward): with fewer stored transitions than the batch size it returns
`None` and touches nothing; otherwise it samples a batch, builds the tensors,
computes the smooth-L1 loss between Q-values and targets, performs one optimizer
step (the optimizer is an external collaborator, abstracted as `optStep`), and
returns the scalar loss.  The result is the returned loss together with the
estimator and the memory after the call. -/
def train_QNet (QNet : DeepQNetwork) (memory : ReplayMemory)
    (optStep : DeepQNetwork → ℚ → DeepQNetwork) (batch_size : ℕ) (seed : ℕ)
    (semi_grad : Bool) : Option ℚ × DeepQNetwork × ReplayMemory :=
  if memory.buffer.length < batch_size then (none, QNet, memory)
  else
    let transitions := (memory.sample batch_size seed).getD []
    let t := trainBatchTensors QNet transitions semi_grad
    let loss := smooth_l1_loss (t.1).val (t.2).val
    (some loss, optStep QNet loss, memory)

/-! Helper lemmas shared by the claim theorems. -/

theorem push_buffer_length (m : ReplayMemory) (t : Transition) :
    ((m.push t).buffer).length = min (m.buffer.length + 1) m.capacity := by
  simp only [ReplayMemory.push, List.length_drop, List.length_append, List.length_cons,
    List.length_nil]
  omega

theorem pushAll_cons (m : ReplayMemory) (t : Transition) (ts : List Transition) :
    m.pushAll (t :: ts) = (m.push t).pushAll ts := rfl

theorem pushAll_buffer (ts : List Transition) (m : ReplayMemory)
    (h : m.buffer.length ≤ m.capacity) :
    (m.pushAll ts).buffer = (m.buffer ++ ts).drop (m.buffer.length + ts.length - m.capacity) := by
  induction ts generalizing m with
  | nil =>
    simp only [ReplayMemory.pushAll, List.foldl_nil, List.append_nil, List.length_nil]
    have : m.buffer.length + 0 - m.capacity = 0 := by omega
    rw [this, List.drop_zero]
  | cons t ts ih =>
    rw [pushAll_cons]
    have hlen : ((m.push t).buffer).length = min (m.buffer.length + 1) m.capacity :=
      push_buffer_length m t
    have hcap : (m.push t).capacity = m.capacity := rfl
    have hle : ((m.push t).buffer).length ≤ (m.push t).capacity := by rw [hlen, hcap]; omega
    rw [ih _ hle, hcap, hlen]
    have hbuf : (m.push t).buffer = (m.buffer ++ [t]).drop (m.buffer.length + 1 - m.capacity) :=
      rfl
    rw [hbuf]
    have hsplit :
        (m.buffer ++ [t]).drop (m.buffer.length + 1 - m.capacity) ++ ts
          = ((m.buffer ++ [t]) ++ ts).drop (m.buffer.length + 1 - m.capacity) := by
      have h0 : m.buffer.length + 1 - m.capacity - (m.buffer ++ [t]).length = 0 := by
        simp only [List.length_append, List.length_cons, List.length_nil]; omega
      conv_rhs => rw [List.drop_append_eq_append_drop, h0, List.drop_zero]
    rw [hsplit, List.drop_drop]
    have harr : m.buffer ++ t :: ts = (m.buffer ++ [t]) ++ ts := by
      simp [List.append_assoc]
    rw [harr]
    congr 1
    simp only [List.length_cons]
    omega

/-- C6.  Replay-buffer FIFO capacity invariant: starting from the empty buffer of
capacity C, after pushing any list of transitions the buffer holds exactly the
most recent min(pushed, C) transitions in push order; in particular its length
never exceeds C, and after C+k pushes with k ≥ 1 it holds exactly the last C
pushed transitions. -/
theorem replay_fifo (C : ℕ) (ts : List Transition) :
    ((ReplayMemory.empty C).pushAll ts).buffer = ts.drop (ts.length - C)
    ∧ ((ReplayMemory.empty C).pushAll ts).buffer.length ≤ C
    ∧ ∀ k, 1 ≤ k → ts.length = C + k →
        ((ReplayMemory.empty C).pushAll ts).buffer = ts.drop k := by
  have hbase : ((ReplayMemory.empty C).buffer).length ≤ (ReplayMemory.empty C).capacity := by
    simp [ReplayMemory.empty]
  have hmain := pushAll_buffer ts (ReplayMemory.empty C) hbase
  have hb : (ReplayMemory.empty C).buffer = ([] : List Transition) := rfl
  have hc : (ReplayMemory.empty C).capacity = C := rfl
  rw [hb, hc] at hmain
  simp only [List.nil_append, List.length_nil, Nat.zero_add] at hmain
  refine ⟨hmain, ?_, ?_⟩
  · rw [hmain, List.length_drop]; omega
  · intro k hk hlen
    rw [hmain, hlen]
    congr 1
    omega

/-- C6 witness: with capacity 2, after 3 pushes the buffer is exactly the last
two pushed transitions, in push order. -/
theorem replay_fifo_witness :
    ((ReplayMemory.empty 2).pushAll
        [{ state := [1], action := 1, reward := 1, next_state := [2], done := false },
         { state := [2], action := 0, reward := 2, next_state := [3], done := false },
         { state := [3], action := 1, reward := 3, next_state := [4], done := true }]).buffer
      = [{ state := [2], action := 0, reward := 2, next_state := [3], done := false },
         { state := [3], action := 1, reward := 3, next_state := [4], done := true }] := by
  have h := (replay_fifo 2
    [{ state := [1], action := 1, reward := 1, next_state := [2], done := false },
     { state := [2], action := 0, reward := 2, next_state := [3], done := false },
     { state := [3], action := 1, reward := 3, next_state := [4], done := true }]).2.2
    1 (by decide) rfl
  exact h

theorem u8SwitchZeroOne_cast (d : ℕ) (hd : d ≤ 1) :
    ((u8SwitchZeroOne d : ℕ) : ℚ) = 1 - (d : ℚ) := by
  interval_cases d <;> norm_num [u8SwitchZeroOne]

theorem compute_targets_cons (Q : DeepQNetwork) (rrow : List ℚ) (reward : Mat) (row : Vec)
    (ns : Mat) (drow : List ℕ) (ds : List (List ℕ)) :
    Q.compute_targets (rrow :: reward) (row :: ns) (.uint8 (drow :: ds))
      = List.zipWith (fun r p => r + p) rrow
          (List.zipWith (fun (m : ℕ) v => (m : ℚ) * Q.discount_factor * v)
            (drow.map u8SwitchZeroOne) [listMax (applyModel Q.model row)])
        :: Q.compute_targets reward ns (.uint8 ds) := rfl

theorem compute_targets_uint8_spec (Q : DeepQNetwork) (rs : List ℚ) (ds : List ℕ) (ns : Mat)
    (hds : ∀ d ∈ ds, d ≤ 1) :
    Q.compute_targets (rs.map (fun r => [r])) ns (.uint8 (ds.map (fun d => [d])))
      = List.zipWith3
          (fun (r : ℚ) (d : ℕ) (row : Vec) =>
            [r + (1 - (d : ℚ)) * Q.discount_factor * listMax (applyModel Q.model row)])
          rs ds ns := by
  induction rs generalizing ds ns with
  | nil => simp [DeepQNetwork.compute_targets, List.zipWith3]
  | cons r rs ih =>
    cases ds with
    | nil => simp [DeepQNetwork.compute_targets, doneMask, List.zipWith3]
    | cons d ds =>
      cases ns with
      | nil => simp [DeepQNetwork.compute_targets, DeepQNetwork.forward, List.zipWith3]
      | cons row ns =>
        have hd : d ≤ 1 := hds d (by simp)
        have htail := ih ds ns (fun x hx => hds x (List.mem_cons_of_mem _ hx))
        simp only [List.map_cons, compute_targets_cons, htail, List.zipWith3, List.map_nil,
          List.zipWith_cons_cons, List.zipWith_nil_right]
        rw [u8SwitchZeroOne_cast d hd]

theorem length_zipWith3 {α β γ δ : Type} (f : α → β → γ → δ) :
    ∀ (as : List α) (bs : List β) (cs : List γ),
      (List.zipWith3 f as bs cs).length = min as.length (min bs.length cs.length)
  | [], _, _ => by simp [List.zipWith3]
  | _ :: _, [], _ => by simp [List.zipWith3]
  | _ :: _, _ :: _, [] => by simp [List.zipWith3]
  | a :: as, b :: bs, c :: cs => by
    simp only [List.zipWith3, List.length_cons, length_zipWith3 f as bs cs]
    omega

theorem getD_zipWith3 {α β γ δ : Type} (f : α → β → γ → δ) (as : List α) (bs : List β)
    (cs : List γ) (i : ℕ) (da : α) (db : β) (dc : γ) (dd : δ) (ha : i < as.length)
    (hb : i < bs.length) (hc : i < cs.length) :
    (List.zipWith3 f as bs cs).getD i dd = f (as.getD i da) (bs.getD i db) (cs.getD i dc) := by
  induction as generalizing bs cs i with
  | nil => exact absurd ha (by simp)
  | cons a as ih =>
    cases bs with
    | nil => exact absurd hb (by simp)
    | cons b bs =>
      cases cs with
      | nil => exact absurd hc (by simp)
      | cons c cs =>
        cases i with
        | zero => rfl
        | succ i =>
          simp only [List.zipWith3, List.getD_cons_succ]
          exact ih bs cs i (by simpa using ha) (by simpa using hb) (by simpa using hc)

/-- C3.  Bellman-target formula: on a batch with reward column `rs`, next-state
rows `ns` and uint8 done column `ds` with entries in range 0..1, `compute_targets`
returns the column whose row i is
`reward[i] + γ * (1 - done[i]) * max(forward(next_state)[i])`, and its length is
the batch size. -/
theorem bellman_target_formula (Q : DeepQNetwork) (rs : List ℚ) (ds : List ℕ) (ns : Mat)
    (hlen1 : ds.length = rs.length) (hlen2 : ns.length = rs.length)
    (hds : ∀ d ∈ ds, d ≤ 1) :
    Q.compute_targets (rs.map (fun r => [r])) ns (.uint8 (ds.map (fun d => [d])))
      = List.zipWith3
          (fun (r : ℚ) (d : ℕ) (row : Vec) =>
            [r + Q.discount_factor * (1 - (d : ℚ)) * listMax (applyModel Q.model row)])
          rs ds ns
    ∧ (Q.compute_targets (rs.map (fun r => [r])) ns (.uint8 (ds.map (fun d => [d])))).length
        = rs.length := by
  have h := compute_targets_uint8_spec Q rs ds ns hds
  have hfun :
      (fun (r : ℚ) (d : ℕ) (row : Vec) =>
          [r + (1 - (d : ℚ)) * Q.discount_factor * listMax (applyModel Q.model row)])
        = fun (r : ℚ) (d : ℕ) (row : Vec) =>
          [r + Q.discount_factor * (1 - (d : ℚ)) * listMax (applyModel Q.model row)] := by
    funext r d row
    congr 1
    ring
  constructor
  · rw [h, hfun]
  · rw [h, length_zipWith3, hlen1, hlen2]
    omega

/-- C3 witness: with discount 9/10, reward 0 and an estimator output row
`[2, 5]` for the non-terminal next state, the target is 9/2 = 4.5. -/
theorem bellman_target_formula_witness :
    exampleNet.compute_targets [[0]] [[2, 5]] (.uint8 [[0]]) = [[9 / 2]] := by
  have h := (bellman_target_formula exampleNet [0] [0] [[2, 5]] rfl rfl (by decide)).1
  simp only [List.map_cons, List.map_nil] at h
  rw [h]
  norm_num [List.zipWith3, listMax, applyModel, applyLayer, dot, exampleNet, max_def,
    List.foldl, List.zipWith, List.sum_cons, List.sum_nil]

/-- C2.  Terminal masking: on any row whose done flag is set, `compute_targets`
returns exactly the reward of that row, whatever the next-state rows and the
discount factor stored in the network are. -/
theorem terminal_target_is_reward (Q : DeepQNetwork) (rs : List ℚ) (ds : List ℕ) (ns : Mat)
    (i : ℕ) (hlen1 : ds.length = rs.length) (hlen2 : ns.length = rs.length)
    (hds : ∀ d ∈ ds, d ≤ 1) (hi : i < rs.length) (hterm : ds.getD i 0 = 1) :
    (Q.compute_targets (rs.map (fun r => [r])) ns (.uint8 (ds.map (fun d => [d])))).getD i []
      = [rs.getD i 0] := by
  rw [compute_targets_uint8_spec Q rs ds ns hds]
  rw [getD_zipWith3 _ rs ds ns i 0 0 [] [] hi (by omega) (by omega)]
  rw [hterm]
  norm_num

/-- C2 witness: a terminal transition with reward 1 and next-state estimate
`[2, 5]` gets target exactly 1 (the bootstrap term 9/10 · 5 is masked out). -/
theorem terminal_target_is_reward_witness :
    (exampleNet.compute_targets [[1]] [[2, 5]] (.uint8 [[1]])).getD 0 []
      = [(1 : ℚ)] :=
  terminal_target_is_reward exampleNet [1] [1] [[2, 5]] 0 rfl rfl (by decide) (by decide) rfl

theorem compute_targets_mask_congr (Q : DeepQNetwork) (reward ns : Mat) (d1 d2 : DoneTensor)
    (h : doneMask d1 = doneMask d2) :
    Q.compute_targets reward ns d1 = Q.compute_targets reward ns d2 := by
  simp only [DeepQNetwork.compute_targets, h]

theorem u8switch_of_bool (b : Bool) :
    u8SwitchZeroOne (if b then 1 else 0) = if b then 0 else 1 := by
  cases b <;> rfl

theorem floatBranch_of_bool (b : Bool) :
    (if (if b then (1 : ℚ) else 0) = 1 then 0 else 1) = if b then (0 : ℕ) else 1 := by
  cases b <;> norm_num

theorem intBranch_of_bool (b : Bool) :
    (if (if b then (1 : ℤ) else 0) = 1 then 0 else 1) = if b then (0 : ℕ) else 1 := by
  cases b <;> norm_num

/-- C4.  Done-flag normalization is representation-robust: for a batch of done
flags given as booleans, the mask `adjusted_dones` derived by `compute_targets`
equals the complement `1 - done` whether the tensor is boolean-typed,
uint8-typed with entries 0 and 1, float-typed with entries 0.0 and 1.0, or
signed-integer-typed with entries 0 and 1 — and consequently `compute_targets`
returns the same value on all four representations. -/
theorem done_normalization_robust (bs : List (List Bool)) (Q : DeepQNetwork)
    (reward ns : Mat) :
    doneMask (.boolT bs) = bs.map (fun row => row.map (fun b => if b then 0 else 1))
    ∧ doneMask (.uint8 (bs.map (fun row => row.map (fun b => if b then 1 else 0))))
        = bs.map (fun row => row.map (fun b => if b then 0 else 1))
    ∧ doneMask (.float (bs.map (fun row => row.map (fun b => if b then (1 : ℚ) else 0))))
        = bs.map (fun row => row.map (fun b => if b then 0 else 1))
    ∧ doneMask (.int64 (bs.map (fun row => row.map (fun b => if b then (1 : ℤ) else 0))))
        = bs.map (fun row => row.map (fun b => if b then 0 else 1))
    ∧ Q.compute_targets reward ns
          (.uint8 (bs.map (fun row => row.map (fun b => if b then 1 else 0))))
        = Q.compute_targets reward ns (.boolT bs)
    ∧ Q.compute_targets reward ns
          (.float (bs.map (fun row => row.map (fun b => if b then (1 : ℚ) else 0))))
        = Q.compute_targets reward ns (.boolT bs)
    ∧ Q.compute_targets reward ns
          (.int64 (bs.map (fun row => row.map (fun b => if b then (1 : ℤ) else 0))))
        = Q.compute_targets reward ns (.boolT bs) := by
  have hb : doneMask (.boolT bs) = bs.map (fun row => row.map (fun b => if b then 0 else 1)) :=
    rfl
  have hu :
      doneMask (.uint8 (bs.map (fun row => row.map (fun b => if b then 1 else 0))))
        = bs.map (fun row => row.map (fun b => if b then 0 else 1)) := by
    simp [doneMask, List.map_map, Function.comp, u8switch_of_bool]
  have hf :
      doneMask (.float (bs.map (fun row => row.map (fun b => if b then (1 : ℚ) else 0))))
        = bs.map (fun row => row.map (fun b => if b then 0 else 1)) := by
    simp [doneMask, List.map_map, Function.comp, floatBranch_of_bool]
  have hi :
      doneMask (.int64 (bs.map (fun row => row.map (fun b => if b then (1 : ℤ) else 0))))
        = bs.map (fun row => row.map (fun b => if b then 0 else 1)) := by
    simp [doneMask, List.map_map, Function.comp, intBranch_of_bool]
  exact ⟨hb, hu, hf, hi,
    compute_targets_mask_congr Q reward ns _ _ (hu.trans hb.symm),
    compute_targets_mask_congr Q reward ns _ _ (hf.trans hb.symm),
    compute_targets_mask_congr Q reward ns _ _ (hi.trans hb.symm)⟩

theorem u8switch_eq_boolBranch (v : ℕ) (hv : v ≤ 1) :
    u8SwitchZeroOne v = if v == 1 then 0 else 1 := by
  interval_cases v <;> rfl

theorem u8switch_eq_floatBranch (v : ℕ) (hv : v ≤ 1) :
    u8SwitchZeroOne v = if ((v : ℚ) = 1) then 0 else 1 := by
  interval_cases v <;> norm_num [u8SwitchZeroOne]

/-- C9.  The two done-normalization branches of `compute_targets` agree on valid
input: on entries that are all 0 or 1, the uint8 branch `(done - 1) * -1` and
the non-uint8 branch (a tensor of ones with zeros written where `done == True`)
produce the same mask, so the computed target does not depend on which branch
runs. -/
theorem done_branches_agree (vs : List (List ℕ)) (Q : DeepQNetwork) (reward ns : Mat)
    (h : ∀ row ∈ vs, ∀ v ∈ row, v ≤ 1) :
    doneMask (.uint8 vs) = doneMask (.boolT (vs.map (fun row => row.map (fun v => v == 1))))
    ∧ doneMask (.uint8 vs)
        = doneMask (.float (vs.map (fun row => row.map (fun (v : ℕ) => (v : ℚ)))))
    ∧ Q.compute_targets reward ns (.uint8 vs)
        = Q.compute_targets reward ns
            (.boolT (vs.map (fun row => row.map (fun v => v == 1)))) := by
  have h1 :
      doneMask (.uint8 vs)
        = doneMask (.boolT (vs.map (fun row => row.map (fun v => v == 1)))) := by
    simp only [doneMask, List.map_map]
    refine List.map_congr_left (fun row hrow => ?_)
    simp only [Function.comp_apply]
    rw [List.map_map]
    refine List.map_congr_left (fun v hv => ?_)
    simp only [Function.comp_apply]
    exact u8switch_eq_boolBranch v (h row hrow v hv)
  have h2 :
      doneMask (.uint8 vs)
        = doneMask (.float (vs.map (fun row => row.map (fun (v : ℕ) => (v : ℚ))))) := by
    simp only [doneMask, List.map_map]
    refine List.map_congr_left (fun row hrow => ?_)
    simp only [Function.comp_apply]
    rw [List.map_map]
    refine List.map_congr_left (fun v hv => ?_)
    simp only [Function.comp_apply]
    exact u8switch_eq_floatBranch v (h row hrow v hv)
  exact ⟨h1, h2, compute_targets_mask_congr Q reward ns _ _ h1⟩

/-- C9 witness: on the column with one non-terminal and one terminal flag the
uint8 branch and the boolean branch produce the same mask. -/
theorem done_branches_agree_witness :
    doneMask (.uint8 [[0], [1]])
      = doneMask (.boolT ([[0], [1]].map (fun row => row.map (fun v => v == 1)))) :=
  (done_branches_agree [[0], [1]] exampleNet [[0], [0]] [[2, 5], [2, 5]] (by decide)).1

theorem getD_zipWith {α β γ : Type} (f : α → β → γ) (as : List α) (bs : List β) (i : ℕ)
    (da : α) (db : β) (dc : γ) (ha : i < as.length) (hb : i < bs.length) :
    (List.zipWith f as bs).getD i dc = f (as.getD i da) (bs.getD i db) := by
  induction as generalizing bs i with
  | nil => exact absurd ha (by simp)
  | cons a as ih =>
    cases bs with
    | nil => exact absurd hb (by simp)
    | cons b bs =>
      cases i with
      | zero => rfl
      | succ i =>
        simp only [List.zipWith_cons_cons, List.getD_cons_succ]
        exact ih bs i (by simpa using ha) (by simpa using hb)

theorem gather_singleton (out : Mat) (acts : List ℕ) :
    gather out (acts.map (fun a => [a]))
      = List.zipWith (fun row a => [row.getD a 0]) out acts := by
  simp [gather, List.zipWith_map_right]

/-- C5.  Selection correctness of `compute_q_vals`: on a batch of states and an
in-range integer action column, the result is the column whose row i is the
entry of `forward(states)[i]` at index `actions[i]` (hence of batch length);
and on any row whose action attains the row maximum, the selected value equals —
so in particular never exceeds — `max(forward(states)[i])`. -/
theorem cqv_selection (Q : DeepQNetwork) (states : Mat) (acts : List ℕ)
    (hlen : acts.length = states.length)
    (_hrange : ∀ i, i < states.length →
      acts.getD i 0 < ((Q.forward states).getD i []).length) :
    Q.compute_q_vals states (acts.map (fun a => [a]))
        = List.zipWith (fun row a => [row.getD a 0]) (Q.forward states) acts
    ∧ (Q.compute_q_vals states (acts.map (fun a => [a]))).length = states.length
    ∧ ∀ i, i < states.length →
        (Q.compute_q_vals states (acts.map (fun a => [a]))).getD i []
            = [((Q.forward states).getD i []).getD (acts.getD i 0) 0]
          ∧ (((Q.forward states).getD i []).getD (acts.getD i 0) 0
                = listMax ((Q.forward states).getD i []) →
              ∀ x ∈ (Q.compute_q_vals states (acts.map (fun a => [a]))).getD i [],
                x ≤ listMax ((Q.forward states).getD i [])) := by
  have hfwd : (Q.forward states).length = states.length := by
    simp [DeepQNetwork.forward]
  have heq : Q.compute_q_vals states (acts.map (fun a => [a]))
      = List.zipWith (fun row a => [row.getD a 0]) (Q.forward states) acts := by
    show gather (Q.forward states) (acts.map (fun a => [a])) = _
    exact gather_singleton (Q.forward states) acts
  refine ⟨heq, ?_, ?_⟩
  · rw [heq, List.length_zipWith, hfwd, hlen]
    omega
  · intro i hi
    have hrow : (Q.compute_q_vals states (acts.map (fun a => [a]))).getD i []
        = [((Q.forward states).getD i []).getD (acts.getD i 0) 0] := by
      rw [heq]
      exact getD_zipWith _ (Q.forward states) acts i [] 0 [] (by omega) (by omega)
    refine ⟨hrow, fun hmax x hx => ?_⟩
    rw [hrow, hmax] at hx
    simp only [List.mem_singleton] at hx
    exact le_of_eq hx

/-- C5 witness: with the identity two-action network, selecting actions 1 and 0
on the batch `[[2, 5], [7, 3]]` yields the column `[[5], [7]]`, each selected
entry being the row maximum of the forward output. -/
theorem cqv_selection_witness :
    exampleNet.compute_q_vals [[2, 5], [7, 3]] [[1], [0]] = [[5], [7]] := by
  have h := (cqv_selection exampleNet [[2, 5], [7, 3]] [1, 0] rfl
    (by
      intro i hi
      have hi2 : i < 2 := by simpa using hi
      interval_cases i <;>
        simp [exampleNet, DeepQNetwork.forward, applyModel, applyLayer, dot])).1
  simp only [List.map_cons, List.map_nil] at h
  rw [h]
  norm_num [exampleNet, DeepQNetwork.forward, applyModel, applyLayer, dot, List.zipWith]

theorem pickFrom_succ (avail : List ℕ) (k s : ℕ) :
    pickFrom avail (k + 1) s
      = avail.getD (s % avail.length) 0
        :: pickFrom (avail.eraseIdx (s % avail.length)) k (lcg s) := rfl

theorem getD_mem_of_lt (l : List ℕ) (i : ℕ) (h : i < l.length) : l.getD i 0 ∈ l := by
  rw [List.getD_eq_getElem l 0 h]
  exact List.getElem_mem h

theorem getD_not_mem_eraseIdx (l : List ℕ) :
    ∀ i : ℕ, l.Nodup → i < l.length → l.getD i 0 ∉ l.eraseIdx i := by
  induction l with
  | nil => intro i _ h; simp at h
  | cons a t ih =>
    intro i hnd hi
    have hnd' := List.nodup_cons.mp hnd
    cases i with
    | zero =>
      simp only [List.getD_cons_zero, List.eraseIdx_cons_zero]
      exact hnd'.1
    | succ i =>
      simp only [List.getD_cons_succ, List.eraseIdx_cons_succ]
      have hi' : i < t.length := by simpa using hi
      intro hmem
      rcases List.mem_cons.mp hmem with h1 | h2
      · have hmem2 : t.getD i 0 ∈ t := getD_mem_of_lt t i hi'
        rw [h1] at hmem2
        exact hnd'.1 hmem2
      · exact ih i hnd'.2 hi' h2

theorem pickFrom_spec (k : ℕ) :
    ∀ (avail : List ℕ) (s : ℕ), k ≤ avail.length → avail.Nodup →
      (pickFrom avail k s).length = k
      ∧ (pickFrom avail k s).Nodup
      ∧ ∀ x ∈ pickFrom avail k s, x ∈ avail := by
  induction k with
  | zero => intro avail s _ _; simp [pickFrom]
  | succ k ih =>
    intro avail s hk hnd
    have hpos : 0 < avail.length := by omega
    have him : s % avail.length < avail.length := Nat.mod_lt _ hpos
    have hlenerase : (avail.eraseIdx (s % avail.length)).length = avail.length - 1 := by
      rw [List.length_eraseIdx]
      simp [him]
    have hsub : List.Sublist (avail.eraseIdx (s % avail.length)) avail :=
      List.eraseIdx_sublist _ _
    have hnd' : (avail.eraseIdx (s % avail.length)).Nodup := hsub.nodup hnd
    have hk' : k ≤ (avail.eraseIdx (s % avail.length)).length := by omega
    obtain ⟨hl, hn, hm⟩ := ih (avail.eraseIdx (s % avail.length)) (lcg s) hk' hnd'
    rw [pickFrom_succ]
    refine ⟨by simp [hl], ?_, ?_⟩
    · rw [List.nodup_cons]
      exact ⟨fun hmem => getD_not_mem_eraseIdx avail _ hnd him (hm _ hmem), hn⟩
    · intro x hx
      rcases List.mem_cons.mp hx with h1 | h2
      · rw [h1]
        exact getD_mem_of_lt avail _ him
      · exact hsub.subset (hm x h2)

/-- C7.  Sampling without replacement: whenever the requested batch size is at
most the buffer occupancy, `sample` returns exactly `batch_size` transitions
drawn at positions that are pairwise distinct and all within the buffer; when
the batch size exceeds the occupancy, `sample` rejects the call (the raised
error is modelled as `none`). -/
theorem sample_spec (m : ReplayMemory) (k seed : ℕ) :
    (k ≤ m.buffer.length →
      m.sample k seed
          = some ((pickFrom (List.range m.buffer.length) k seed).map
              (fun i => m.buffer.getD i defaultTransition))
        ∧ (pickFrom (List.range m.buffer.length) k seed).length = k
        ∧ (pickFrom (List.range m.buffer.length) k seed).Nodup
        ∧ ∀ i ∈ pickFrom (List.range m.buffer.length) k seed, i < m.buffer.length)
    ∧ (m.buffer.length < k → m.sample k seed = none) := by
  constructor
  · intro h
    obtain ⟨hl, hn, hm⟩ :=
      pickFrom_spec k (List.range m.buffer.length) seed (by simpa) (List.nodup_range _)
    refine ⟨?_, hl, hn, fun i hi => List.mem_range.mp (hm i hi)⟩
    simp [ReplayMemory.sample, h]
  · intro h
    simp only [ReplayMemory.sample]
    rw [if_neg (by omega)]

/-- C7 witness: from a buffer of three transitions, sampling two with seed 0
returns the transitions at the two distinct positions 0 and 2. -/
theorem sample_spec_witness :
    (ReplayMemory.mk 10
        [{ state := [1], action := 1, reward := 1, next_state := [1], done := false },
         { state := [2], action := 2, reward := 2, next_state := [2], done := false },
         { state := [3], action := 3, reward := 3, next_state := [3], done := true }]).sample 2 0
      = some
          [{ state := [1], action := 1, reward := 1, next_state := [1], done := false },
           { state := [3], action := 3, reward := 3, next_state := [3], done := true }] := by
  have h := (sample_spec (ReplayMemory.mk 10
    [{ state := [1], action := 1, reward := 1, next_state := [1], done := false },
     { state := [2], action := 2, reward := 2, next_state := [2], done := false },
     { state := [3], action := 3, reward := 3, next_state := [3], done := true }]) 2 0).1
    (by decide)
  rw [h.1]
  rfl

/-- C10.  The state-value operation `compute_v_vals` returns `None` on every
input (its Python body is `pass`), rather than raising or being marked
unsupported. -/
theorem compute_v_vals_is_none (Q : DeepQNetwork) (states : Mat) :
    Q.compute_v_vals states = none := rfl

/-- C1.  Semi-gradient isolation in the standard update (`semi_grad = True`,
the default): among the two tensors of the update that enter the loss, the
output of `compute_q_vals` belongs to the computation graph from which the
optimizer-step gradient is accumulated, while the output of `compute_targets`,
evaluated under `torch.no_grad()`, does not — although both are computed from
the same parameter set. -/
theorem semi_gradient_isolation (QNet : DeepQNetwork) (ts : List Transition) :
    (trainBatchTensors QNet ts true).1.grad = true
    ∧ (trainBatchTensors QNet ts true).2.grad = false := by
  simp [trainBatchTensors, DeepQNetwork.gcompute_q_vals, DeepQNetwork.gcompute_targets,
    memory_to_input]

/-- C8.  Warm-up no-op: when the buffer holds fewer transitions than the batch
size, the training step returns the sentinel `None` instead of a loss and leaves
both the estimator and the buffer unchanged. -/
theorem warmup_noop (QNet : DeepQNetwork) (memory : ReplayMemory)
    (optStep : DeepQNetwork → ℚ → DeepQNetwork) (batch_size seed : ℕ) (semi_grad : Bool)
    (h : memory.buffer.length < batch_size) :
    train_QNet QNet memory optStep batch_size seed semi_grad = (none, QNet, memory) := by
  simp [train_QNet, h]

/-- C8 witness: an empty buffer with batch size 3 makes the training step
return the sentinel and leave the estimator and buffer untouched. -/
theorem warmup_noop_witness :
    train_QNet exampleNet (ReplayMemory.empty 5) (fun q _ => q) 3 0 true
      = (none, exampleNet, ReplayMemory.empty 5) :=
  warmup_noop exampleNet (ReplayMemory.empty 5) (fun q _ => q) 3 0 true (by decide)

end DQNModel
